import Mathlib

/-!
Shallow embedding of the analysis engine of the student-progress-analyzer
repository (the function analyzeLearnerData and the record types it consumes
and produces), together with theorems checking the specified behaviour.

Conventions of the embedding:
* JavaScript numbers holding week indices are embedded as Int; the
  weekPercentage field (which may be fractional) is embedded as Rat.
* A JavaScript Map is embedded as an association list in key-insertion
  order; Map.set replaces the value at an existing key in place and
  otherwise appends the new binding at the end, which is exactly the
  iteration-order behaviour of the JavaScript Map.
* A JavaScript Set is embedded as a duplicate-free list in insertion order.
* String.prototype.toLowerCase and String.prototype.includes are embedded
  by per-character ASCII lowercasing and substring search over the
  character list of the string.
* Array.prototype.sort with a consistent comparator is a stable sort; all
  stable sorts by the same total preorder produce the same list, so it is
  embedded as List.insertionSort (which is stable) with the preorder
  "the comparator is nonpositive on (a, b)".
* Percentages are computed in Rat; a percentage whose denominator is zero
  (which in JavaScript evaluates to NaN or Infinity and stays non-finite
  under Math.round) is embedded as Option.none, a finite rounded
  percentage as Option.some of the rounded integer.
-/

/-- One row of parsed input, mirroring the LearnerData interface of
src/src/types/index.ts. -/
structure LearnerData where
  email : String
  courseName : String
  currentWeek : Int
  currentWeekName : String
  weekStatus : String
  currentWeekProgress : String
  weekPercentage : Rat
  lastActivity : String
  lastCompletedModule : String
  nextAction : String
deriving DecidableEq

/-- Risk level of an at-risk learner, mirroring the union type of
AtRiskLearner.riskLevel. -/
inductive RiskLevel where
  | High
  | Medium
  | Low
deriving DecidableEq

/-- AtRiskLearner extends LearnerData with the weeksBeind (sic, the field is
misspelled in the source) and riskLevel fields. -/
structure AtRiskLearner extends LearnerData where
  weeksBeind : Int
  riskLevel : RiskLevel
deriving DecidableEq

/-- Per-course statistics, mirroring the CourseStats interface. -/
structure CourseStats where
  courseName : String
  totalLearners : Nat
  inProgress : Nat
  completed : Nat
  notStarted : Nat
  atRisk : Nat
deriving DecidableEq

/-- One weekly-breakdown entry, mirroring the WeeklyProgress interface. -/
structure WeeklyProgress where
  weekNumber : Int
  weekName : String
  learnersCount : Nat
  completedCount : Nat
  inProgressCount : Nat
  notStartedCount : Nat
deriving DecidableEq

/-- One next-action tally entry, mirroring the NextActionStats interface.
The percentage is Option.none when its JavaScript value is non-finite. -/
structure NextActionStats where
  action : String
  count : Nat
  percentage : Option Int
deriving DecidableEq

/-- Per-course week statistics, mirroring the CourseWeekStats interface. -/
structure CourseWeekStats where
  courseName : String
  currentWeek : Int
  totalWeeks : Nat
  weeklyBreakdown : List WeeklyProgress
deriving DecidableEq

/-- One entry of the progressDistribution list (inline object type in
AnalysisResult). -/
structure ProgressDistEntry where
  range : String
  count : Nat
deriving DecidableEq

/-- One entry of the riskDistribution list (inline object type in
AnalysisResult). The percentage is Option.none when its JavaScript value is
non-finite. -/
structure RiskDistEntry where
  name : String
  count : Nat
  percentage : Option Int
deriving DecidableEq

/-! ### String helpers: toLowerCase and includes -/

/-- Embedding of String.prototype.toLowerCase, per-character ASCII
lowercasing. -/
def strToLower (s : String) : String := String.mk (s.data.map Char.toLower)

/-- Does the second list occur at the head of the first list? -/
def charsHavePre : List Char → List Char → Bool
  | [], _ => true
  | _ :: _, [] => false
  | p :: ps, c :: cs => p == c && charsHavePre ps cs

/-- Does pat occur as a contiguous run anywhere in the list? -/
def charsHaveSub (pat : List Char) : List Char → Bool
  | [] => pat.isEmpty
  | c :: cs => charsHavePre pat (c :: cs) || charsHaveSub pat cs

/-- Embedding of String.prototype.includes: substring containment. -/
def strIncludes (s pat : String) : Bool := charsHaveSub pat.data s.data

/-- Embedding of String.prototype.trim restricted to ASCII whitespace. -/
def strTrim (s : String) : String :=
  let ws := fun c => c == ' ' || c == '\t' || c == '\n' || c == '\r'
  String.mk (((s.data.dropWhile ws).reverse.dropWhile ws).reverse)

/-! ### JavaScript Map and Set embeddings -/

/-- Map.prototype.set: replace the value at an existing key in place,
otherwise append the binding at the end. -/
def mapSet {β : Type} : List (String × β) → String → β → List (String × β)
  | [], k, v => [(k, v)]
  | p :: t, k, v => if p.1 = k then (k, v) :: t else p :: mapSet t k v

/-- Map.prototype.get, returning Option.none for a missing key. -/
def mapLookup {β : Type} : List (String × β) → String → Option β
  | [], _ => none
  | p :: t, k => if p.1 = k then some p.2 else mapLookup t k

/-- Set.prototype.add: append the element unless already present. -/
def setAdd {α : Type} [DecidableEq α] : List α → α → List α
  | [], k => [k]
  | a :: t, k => if a = k then a :: t else a :: setAdd t k

/-! ### The analysis engine (src/unnamed/part_004, analyzeLearnerData) -/

/-- Lines 5-6: the set of distinct emails over all rows, in first-occurrence
order. -/
def uniqueEmails (data : List LearnerData) : List String :=
  data.foldl (fun s learner => setAdd s learner.email) []

/-- Line 6: uniqueLearnerCount, the size of the unique-email set. -/
def uniqueLearnerCount (data : List LearnerData) : Nat :=
  (uniqueEmails data).length

/-- Lines 16-26: offTrackLearners filter. -/
def offTrackLearners (data : List LearnerData) (currentAnalysisWeek : Int) :
    List LearnerData :=
  data.filter fun learner =>
    let isBehindCurrentWeek : Bool := learner.currentWeek < currentAnalysisWeek
    if !isBehindCurrentWeek then false
    else
      let nextAction := strToLower learner.nextAction
      let isReadyToAdvance :=
        strIncludes nextAction "move to week" || strIncludes nextAction "move to next"
      !isReadyToAdvance

/-- Lines 35-53: the body of the at-risk map stage: spread the learner and
add the clamped weeksBehind and the risk level from the if chain (the
initial value Low of the source's riskLevel variable is the final else). -/
def atRiskEntry (currentAnalysisWeek : Int) (learner : LearnerData) : AtRiskLearner :=
  let weeksBehind := max 0 (currentAnalysisWeek - learner.currentWeek)
  let riskLevel : RiskLevel :=
    if weeksBehind = 3 then RiskLevel.High
    else if weeksBehind = 2 then RiskLevel.Medium
    else if weeksBehind = 1 then RiskLevel.Low
    else RiskLevel.Low
  { toLearnerData := learner, weeksBeind := weeksBehind, riskLevel := riskLevel }

/-- Lines 29-54: the at-risk filter and map stages, before the sort. -/
def atRiskUnsorted (data : List LearnerData) (currentAnalysisWeek : Int) :
    List AtRiskLearner :=
  (data.filter fun learner =>
      decide (currentAnalysisWeek - learner.currentWeek ≥ 1) &&
        decide (currentAnalysisWeek - learner.currentWeek ≤ 3)).map
    (atRiskEntry currentAnalysisWeek)

/-- The order of the at-risk sort: a may precede b exactly when the
comparator (a, b) => b.weeksBeind - a.weeksBeind is nonpositive. -/
def riskOrder (a b : AtRiskLearner) : Prop :=
  b.weeksBeind ≤ a.weeksBeind

instance : DecidableRel riskOrder :=
  fun a b => inferInstanceAs (Decidable (b.weeksBeind ≤ a.weeksBeind))

instance : IsTotal AtRiskLearner riskOrder :=
  ⟨fun a b => Int.le_total b.weeksBeind a.weeksBeind⟩

instance : IsTrans AtRiskLearner riskOrder :=
  ⟨fun _ _ _ hab hbc => le_trans hbc hab⟩

/-- Line 55: stable descending sort by weeksBeind (the comparator
(a, b) => b.weeksBeind - a.weeksBeind under the stable Array sort). -/
def atRiskLearners (data : List LearnerData) (currentAnalysisWeek : Int) :
    List AtRiskLearner :=
  (atRiskUnsorted data currentAnalysisWeek).insertionSort riskOrder

/-- Lines 61-72: course name → (email → last row of that email in that
course), both maps in insertion order. -/
def courseLearnersMap (data : List LearnerData) :
    List (String × List (String × LearnerData)) :=
  data.foldl
    (fun m learner =>
      mapSet m learner.courseName
        (mapSet ((mapLookup m learner.courseName).getD []) learner.email learner))
    []

/-- The deduplicated learner list of one course (empty for an unknown
course). -/
def courseMapOf (data : List LearnerData) (courseName : String) :
    List (String × LearnerData) :=
  (mapLookup (courseLearnersMap data) courseName).getD []

/-- Status bucket used by the per-course statistics. -/
inductive StatusBucket where
  | completed
  | inProgress
  | notStarted
deriving DecidableEq

/-- Lines 87-95: the status chain of the course statistics: completed, else
progress, else not started, else default to in progress. -/
def courseBucket (weekStatus : String) : StatusBucket :=
  if strIncludes (strToLower weekStatus) "completed" then StatusBucket.completed
  else if strIncludes (strToLower weekStatus) "progress" then StatusBucket.inProgress
  else if strIncludes (strToLower weekStatus) "not started" then StatusBucket.notStarted
  else StatusBucket.inProgress

/-- Written from the spec for the refinement check of the status-bucketing
rule; follows the spec order: contains "completed", else contains
"progress", else contains "not started", else default to In Progress. -/
def specStatusBucket (weekStatus : String) : StatusBucket :=
  if strIncludes (strToLower weekStatus) "completed" then StatusBucket.completed
  else if strIncludes (strToLower weekStatus) "progress" then StatusBucket.inProgress
  else if strIncludes (strToLower weekStatus) "not started" then StatusBucket.notStarted
  else StatusBucket.inProgress

/-- Lines 75-107: statistics of one course, folded over its deduplicated
learner map in insertion order. -/
def courseStatsFor (ar : List AtRiskLearner) (courseName : String)
    (learners : List (String × LearnerData)) : CourseStats :=
  learners.foldl
    (fun stats p =>
      let learner := p.2
      let stats1 :=
        match courseBucket learner.weekStatus with
        | StatusBucket.completed => { stats with completed := stats.completed + 1 }
        | StatusBucket.inProgress => { stats with inProgress := stats.inProgress + 1 }
        | StatusBucket.notStarted => { stats with notStarted := stats.notStarted + 1 }
      let isAtRisk := ar.any fun atRisk =>
        atRisk.toLearnerData.email == learner.email &&
          atRisk.toLearnerData.courseName == learner.courseName
      if isAtRisk then { stats1 with atRisk := stats1.atRisk + 1 } else stats1)
    { courseName := courseName, totalLearners := learners.length,
      inProgress := 0, completed := 0, notStarted := 0, atRisk := 0 }

/-- Lines 75-109: courseStats in course insertion order. -/
def courseStats (data : List LearnerData) (currentAnalysisWeek : Int) :
    List CourseStats :=
  (courseLearnersMap data).map fun p =>
    courseStatsFor (atRiskLearners data currentAnalysisWeek) p.1 p.2

/-- Lines 112-115: the globally deduplicated email → last row map. -/
def uniqueLearnersMap (data : List LearnerData) : List (String × LearnerData) :=
  data.foldl (fun m learner => mapSet m learner.email learner) []

/-- One percentage bucket of progressDistribution. -/
structure ProgressRange where
  range : String
  min : Rat
  max : Rat
deriving DecidableEq

/-- Lines 117-123: the five fixed percentage buckets. -/
def progressRanges : List ProgressRange :=
  [{ range := "0-20%", min := 0, max := 20 },
   { range := "21-40%", min := 21, max := 40 },
   { range := "41-60%", min := 41, max := 60 },
   { range := "61-80%", min := 61, max := 80 },
   { range := "81-100%", min := 81, max := 100 }]

/-- Is the percentage inside the closed bucket range (line 128)? -/
def inRange (r : ProgressRange) (p : Rat) : Bool :=
  decide (p ≥ r.min) && decide (p ≤ r.max)

/-- Lines 125-130: progressDistribution over the deduplicated learner map. -/
def progressDistribution (data : List LearnerData) : List ProgressDistEntry :=
  progressRanges.map fun r =>
    { range := r.range,
      count := (((uniqueLearnersMap data).map Prod.snd).filter fun learner =>
          inRange r learner.weekPercentage).length }

/-- The four global status counters (lines 136-141). -/
structure StatusCounts where
  completed : Nat
  inProgress : Nat
  atRisk : Nat
  notStarted : Nat
deriving DecidableEq

/-- Bucket assigned to one deduplicated learner by the global status
distribution (lines 145-166). -/
inductive GlobalBucket where
  | completed
  | notStarted
  | atRisk
  | inProgress
deriving DecidableEq

/-- Lines 148-166: the global status chain: completed, else not started,
else progress (at-risk check inside), else default (at-risk check again). -/
def globalBucket (isAtRisk : Bool) (weekStatus : String) : GlobalBucket :=
  let status := strToLower weekStatus
  if strIncludes status "completed" then GlobalBucket.completed
  else if strIncludes status "not started" then GlobalBucket.notStarted
  else if strIncludes status "progress" then
    if isAtRisk then GlobalBucket.atRisk else GlobalBucket.inProgress
  else
    if isAtRisk then GlobalBucket.atRisk else GlobalBucket.inProgress

/-- Increment the counter selected by the bucket. -/
def bumpStatus (c : StatusCounts) (b : GlobalBucket) : StatusCounts :=
  match b with
  | GlobalBucket.completed => { c with completed := c.completed + 1 }
  | GlobalBucket.notStarted => { c with notStarted := c.notStarted + 1 }
  | GlobalBucket.atRisk => { c with atRisk := c.atRisk + 1 }
  | GlobalBucket.inProgress => { c with inProgress := c.inProgress + 1 }

/-- Lines 136-167: the global status counters folded over the deduplicated
learner map; the at-risk membership test is by email only (line 146). -/
def statusCounts (data : List LearnerData) (currentAnalysisWeek : Int) :
    StatusCounts :=
  ((uniqueLearnersMap data).map Prod.snd).foldl
    (fun c learner =>
      bumpStatus c
        (globalBucket
          ((atRiskLearners data currentAnalysisWeek).any fun atRisk =>
            atRisk.toLearnerData.email == learner.email)
          learner.weekStatus))
    { completed := 0, inProgress := 0, atRisk := 0, notStarted := 0 }

/-- Math.round of a finite rational: round to nearest, half toward
positive infinity. -/
def jsRound (x : Rat) : Int := Int.floor (x + 1 / 2)

/-- Math.round((count / total) * 100): Option.none models the non-finite
result of a zero denominator. -/
def jsPct (count total : Nat) : Option Int :=
  if total = 0 then none
  else some (jsRound ((count : Rat) / (total : Rat) * 100))

/-- Lines 169-190: riskDistribution, dropping zero-count entries. -/
def riskDistribution (data : List LearnerData) (currentAnalysisWeek : Int) :
    List RiskDistEntry :=
  let sc := statusCounts data currentAnalysisWeek
  let n := uniqueLearnerCount data
  ([{ name := "In Progress", count := sc.inProgress, percentage := jsPct sc.inProgress n },
    { name := "Completed", count := sc.completed, percentage := jsPct sc.completed n },
    { name := "At Risk", count := sc.atRisk, percentage := jsPct sc.atRisk n },
    { name := "Not Started", count := sc.notStarted, percentage := jsPct sc.notStarted n }]
    : List RiskDistEntry).filter fun item => decide (0 < item.count)

/-- Line 193: the distinct currentWeek values over the given rows, sorted
ascending. -/
def weekNumbersOf (rows : List LearnerData) : List Int :=
  (rows.foldl (fun s learner => setAdd s learner.currentWeek) []).insertionSort (· ≤ ·)

/-- Lines 195-205 and 235-245: one weekly-breakdown entry over the given
rows; the weekName falls back to "Week n" when the first matching row is
missing or its currentWeekName is the empty string (JavaScript ||). -/
def weekEntry (rows : List LearnerData) (weekNum : Int) : WeeklyProgress :=
  let weekLearners := rows.filter fun learner => learner.currentWeek == weekNum
  let weekName :=
    match weekLearners.head? with
    | some learner =>
        if learner.currentWeekName = "" then "Week " ++ toString weekNum
        else learner.currentWeekName
    | none => "Week " ++ toString weekNum
  { weekNumber := weekNum, weekName := weekName,
    learnersCount := weekLearners.length,
    completedCount :=
      (weekLearners.filter fun l => strIncludes (strToLower l.weekStatus) "completed").length,
    inProgressCount :=
      (weekLearners.filter fun l => strIncludes (strToLower l.weekStatus) "progress").length,
    notStartedCount :=
      (weekLearners.filter fun l => strIncludes (strToLower l.weekStatus) "not started").length }

/-- Lines 192-206: weeklyProgressStats over the whole dataset. -/
def weeklyProgressStats (data : List LearnerData) : List WeeklyProgress :=
  (weekNumbersOf data).map (weekEntry data)

/-- Lines 209-215: the trimmed non-empty next-action tally map, in
first-occurrence order. -/
def nextActionMap (data : List LearnerData) : List (String × Nat) :=
  data.foldl
    (fun m learner =>
      let action := strTrim learner.nextAction
      if action ≠ "" then mapSet m action ((mapLookup m action).getD 0 + 1) else m)
    []

/-- The order of the next-action sort: the comparator
(a, b) => b.count - a.count is nonpositive. -/
def countOrder (a b : NextActionStats) : Prop :=
  b.count ≤ a.count

instance : DecidableRel countOrder :=
  fun a b => inferInstanceAs (Decidable (b.count ≤ a.count))

instance : IsTotal NextActionStats countOrder :=
  ⟨fun a b => Nat.le_total b.count a.count⟩

instance : IsTrans NextActionStats countOrder :=
  ⟨fun _ _ _ hab hbc => le_trans hbc hab⟩

/-- Lines 217-223: nextActionStats, stably sorted descending by count. -/
def nextActionStats (data : List LearnerData) : List NextActionStats :=
  (((nextActionMap data).map fun p =>
      ({ action := p.1, count := p.2, percentage := jsPct p.2 data.length }
        : NextActionStats))).insertionSort countOrder

/-- Math.max over a spread list; the empty case (JavaScript negative
infinity) is unreachable in the engine because every course present in
courseStats has at least one row. -/
def listMax : List Int → Int
  | [] => 0
  | x :: xs => xs.foldl max x

/-- Lines 226-254: courseWeekStats. -/
def courseWeekStats (data : List LearnerData) (currentAnalysisWeek : Int) :
    List CourseWeekStats :=
  (courseStats data currentAnalysisWeek).map fun course =>
    let courseLearners := data.filter fun learner => learner.courseName == course.courseName
    let courseWeeks := weekNumbersOf courseLearners
    let totalWeeks : Nat :=
      if strIncludes (strToLower course.courseName) "developer fundamentals" then 10 else 11
    { courseName := course.courseName, currentWeek := listMax courseWeeks,
      totalWeeks := totalWeeks,
      weeklyBreakdown := courseWeeks.map (weekEntry courseLearners) }

/-- The object returned by analyzeLearnerData (lines 256-266). The
TypeScript interface AnalysisResult additionally declares isGracePeriod and
currentWeek fields, which the return statement of the source on hand does
not construct; see isGracePeriod below. -/
structure AnalysisResult where
  totalLearners : Nat
  atRiskLearners : List AtRiskLearner
  courseStats : List CourseStats
  progressDistribution : List ProgressDistEntry
  riskDistribution : List RiskDistEntry
  weeklyProgressStats : List WeeklyProgress
  nextActionStats : List NextActionStats
  courseWeekStats : List CourseWeekStats
  offTrackLearners : List LearnerData
deriving DecidableEq

/-- Lines 3-267: the analysis engine. -/
def analyzeLearnerData (data : List LearnerData) (currentWeek : Int) :
    AnalysisResult :=
  { totalLearners := uniqueLearnerCount data,
    atRiskLearners := atRiskLearners data currentWeek,
    courseStats := courseStats data currentWeek,
    progressDistribution := progressDistribution data,
    riskDistribution := riskDistribution data currentWeek,
    weeklyProgressStats := weeklyProgressStats data,
    nextActionStats := nextActionStats data,
    courseWeekStats := courseWeekStats data currentWeek,
    offTrackLearners := offTrackLearners data currentWeek }

/-- Modelled from the spec: the isGracePeriod flag of the AnalysisResult.
The flag is declared in the AnalysisResult interface of
src/src/types/index.ts and consumed by src/src/components/AIInsights.tsx,
but the code computing it is not among the sources on hand (the return
statement of analyzeLearnerData in src/unnamed/part_004 does not construct
it). The spec states: true when currentAnalysisWeek < 4. -/
def isGracePeriod (currentAnalysisWeek : Int) : Bool :=
  currentAnalysisWeek < 4

/-! ### Demonstration inputs used by the concrete parts of the theorems -/

/-- A baseline row; the demonstration inputs below override its fields. -/
def baseRow : LearnerData :=
  { email := "a@example.com", courseName := "Cloud Foundations", currentWeek := 0,
    currentWeekName := "Week 0", weekStatus := "In Progress",
    currentWeekProgress := "", weekPercentage := 50, lastActivity := "",
    lastCompletedModule := "", nextAction := "Continue" }

/-- A learner behind schedule whose next action says to move on. -/
def moveRow : LearnerData :=
  { baseRow with currentWeek := 2, nextAction := "Move to Week 3" }

/-- A learner far behind schedule (more than 3 weeks for week 9). -/
def farRow : LearnerData :=
  { baseRow with currentWeek := 1, nextAction := "Reach out" }

/-- First of two off-track rows sharing one email. -/
def offDupA : LearnerData :=
  { baseRow with currentWeek := 2, nextAction := "Check in" }

/-- Second of two off-track rows sharing one email. -/
def offDupB : LearnerData :=
  { baseRow with currentWeek := 3, nextAction := "Check in" }

/-- A learner one week behind week 2, inside the grace period. -/
def graceRow : LearnerData :=
  { baseRow with currentWeek := 1 }

/-- Earlier duplicate row of one learner. -/
def dupFirst : LearnerData :=
  { baseRow with weekStatus := "In Progress", weekPercentage := 10 }

/-- Later duplicate row of the same learner: same email and course. -/
def dupSecond : LearnerData :=
  { baseRow with weekStatus := "Completed", weekPercentage := 90 }

/-- Input with two rows for the same email and course. -/
def dedupDemo : List LearnerData := [dupFirst, dupSecond]

/-- A week status containing both "not started" and "progress". -/
def mixedRow : LearnerData :=
  { baseRow with weekStatus := "not started in progress" }

/-- A row whose currentWeekName is the empty string. -/
def blankWeekRow : LearnerData :=
  { baseRow with currentWeek := 3, currentWeekName := "" }

/-- The rational 20.5, strictly between the 0-20 and 21-40 buckets. -/
def midPct : Rat := ⟨41, 2, by decide, by decide⟩

/-- A deduplicated learner whose weekPercentage falls in no bucket. -/
def gapRow : LearnerData :=
  { baseRow with weekPercentage := midPct }

/-- Three at-risk rows for week 5: two tied at 2 weeks behind around one at
3 weeks behind, exercising sort stability. -/
def tieA : LearnerData := { baseRow with email := "t1@example.com", currentWeek := 3 }

/-- Second tied at-risk row (2 weeks behind week 5). -/
def tieB : LearnerData := { baseRow with email := "t2@example.com", currentWeek := 3 }

/-- An at-risk row 3 weeks behind week 5. -/
def tieC : LearnerData := { baseRow with email := "t3@example.com", currentWeek := 2 }

/-- Input whose at-risk sort has a tie. -/
def tieDemo : List LearnerData := [tieA, tieC, tieB]

/-! ### Helper lemmas about the Map and Set embeddings -/

theorem mapLookup_mapSet {β : Type} (m : List (String × β)) (k q : String) (v : β) :
    mapLookup (mapSet m k v) q = if q = k then some v else mapLookup m q := by
  induction m with
  | nil =>
      simp only [mapSet, mapLookup]
      by_cases h : k = q
      · rw [if_pos h, if_pos h.symm]
      · rw [if_neg h, if_neg (fun hh : q = k => h hh.symm)]
  | cons p t ih =>
      rcases p with ⟨pk, pv⟩
      by_cases hpk : pk = k
      · have h1 : mapSet ((pk, pv) :: t) k v = (k, v) :: t := by
          simp [mapSet, hpk]
        rw [h1]
        simp only [mapLookup]
        by_cases hq : q = k
        · rw [if_pos hq.symm, if_pos hq]
        · rw [if_neg (fun hh : k = q => hq hh.symm), if_neg hq,
            if_neg (fun hh : pk = q => hq (hpk ▸ hh).symm)]
      · have h1 : mapSet ((pk, pv) :: t) k v = (pk, pv) :: mapSet t k v := by
          simp [mapSet, hpk]
        rw [h1]
        simp only [mapLookup, ih]
        by_cases hpq : pk = q
        · rw [if_pos hpq, if_neg (fun hh : q = k => hpk (hpq.trans hh)), if_pos hpq]
        · rw [if_neg hpq, if_neg hpq]

theorem keys_mapSet {β : Type} (m : List (String × β)) (k : String) (v : β) :
    (mapSet m k v).map Prod.fst = setAdd (m.map Prod.fst) k := by
  induction m with
  | nil => simp [mapSet, setAdd]
  | cons p t ih =>
      by_cases hpk : p.1 = k
      · simp [mapSet, hpk, setAdd]
      · simp [mapSet, hpk, setAdd, ih]

theorem mem_setAdd {α : Type} [DecidableEq α] (s : List α) (k a : α) :
    a ∈ setAdd s k ↔ a ∈ s ∨ a = k := by
  induction s with
  | nil => simp [setAdd]
  | cons b t ih =>
      by_cases hbk : b = k
      · have h1 : setAdd (b :: t) k = b :: t := by simp [setAdd, hbk]
        rw [h1]
        subst hbk
        exact ⟨Or.inl, fun h => h.elim id (fun h => h ▸ List.mem_cons_self _ _)⟩
      · have h1 : setAdd (b :: t) k = b :: setAdd t k := by simp [setAdd, hbk]
        rw [h1]
        simp [ih, or_assoc]

theorem nodup_setAdd {α : Type} [DecidableEq α] (s : List α) (k : α)
    (hs : s.Nodup) : (setAdd s k).Nodup := by
  induction s with
  | nil => simp [setAdd]
  | cons b t ih =>
      rcases List.nodup_cons.mp hs with ⟨hb, ht⟩
      by_cases hbk : b = k
      · have h1 : setAdd (b :: t) k = b :: t := by simp [setAdd, hbk]
        rw [h1]; exact hs
      · have h1 : setAdd (b :: t) k = b :: setAdd t k := by simp [setAdd, hbk]
        rw [h1]
        refine List.nodup_cons.mpr ⟨?_, ih ht⟩
        intro hmem
        rcases (mem_setAdd t k b).mp hmem with h | h
        · exact hb h
        · exact hbk h

theorem foldl_setAdd_mem {α γ : Type} [DecidableEq α] (g : γ → α) (l : List γ) :
    ∀ (s : List α) (a : α),
      a ∈ l.foldl (fun s x => setAdd s (g x)) s ↔ a ∈ s ∨ ∃ x ∈ l, g x = a := by
  induction l with
  | nil => intro s a; simp
  | cons x t ih =>
      intro s a
      simp only [List.foldl_cons, ih, mem_setAdd, List.mem_cons]
      constructor
      · rintro ((h | h) | ⟨y, hy, hgy⟩)
        · exact Or.inl h
        · exact Or.inr ⟨x, Or.inl rfl, h.symm⟩
        · exact Or.inr ⟨y, Or.inr hy, hgy⟩
      · rintro (h | ⟨y, (rfl | hy), hgy⟩)
        · exact Or.inl (Or.inl h)
        · exact Or.inl (Or.inr hgy.symm)
        · exact Or.inr ⟨y, hy, hgy⟩

theorem foldl_setAdd_nodup {α γ : Type} [DecidableEq α] (g : γ → α) (l : List γ) :
    ∀ (s : List α), s.Nodup → (l.foldl (fun s x => setAdd s (g x)) s).Nodup := by
  induction l with
  | nil => intro s hs; simpa using hs
  | cons x t ih =>
      intro s hs
      exact ih _ (nodup_setAdd s (g x) hs)

theorem keys_foldl_mapSet {β γ : Type} (key : γ → String)
    (valf : List (String × β) → γ → β) (l : List γ) :
    ∀ (m : List (String × β)),
      (l.foldl (fun m x => mapSet m (key x) (valf m x)) m).map Prod.fst =
        l.foldl (fun s x => setAdd s (key x)) (m.map Prod.fst) := by
  induction l with
  | nil => intro m; rfl
  | cons x t ih =>
      intro m
      simp only [List.foldl_cons]
      rw [ih, keys_mapSet]

theorem getLast?_cons_or {α : Type} (a : α) (l : List α) :
    (a :: l).getLast? = l.getLast?.or (some a) := by
  induction l generalizing a with
  | nil => rfl
  | cons b t ih =>
      rw [List.getLast?_cons_cons, ih b]
      cases t.getLast? <;> rfl

theorem lookup_foldl_mapSet {γ : Type} (key : γ → String) (l : List γ) :
    ∀ (m : List (String × γ)) (q : String),
      mapLookup (l.foldl (fun m x => mapSet m (key x) x) m) q =
        ((l.filter fun x => key x == q).getLast?).or (mapLookup m q) := by
  induction l with
  | nil => intro m q; rfl
  | cons x t ih =>
      intro m q
      simp only [List.foldl_cons, List.filter_cons]
      by_cases hx : key x = q
      · have hb : (key x == q) = true := beq_iff_eq.mpr hx
        rw [if_pos hb, ih, mapLookup_mapSet, if_pos hx.symm, getLast?_cons_or]
        cases (t.filter fun x => key x == q).getLast? <;> rfl
      · have hb : ¬ (key x == q) = true := by
          intro hh; exact hx (beq_iff_eq.mp hh)
        rw [if_neg hb, ih, mapLookup_mapSet, if_neg (fun hh : q = key x => hx hh.symm)]

theorem lookup_foldl_mapSet_upd {β γ : Type} (key : γ → String)
    (upd : β → γ → β) (d : β) (l : List γ) :
    ∀ (m : List (String × β)) (q : String),
      (mapLookup
          (l.foldl (fun m x => mapSet m (key x) (upd ((mapLookup m (key x)).getD d) x)) m)
          q).getD d =
        (l.filter fun x => key x == q).foldl upd ((mapLookup m q).getD d) := by
  induction l with
  | nil => intro m q; rfl
  | cons x t ih =>
      intro m q
      simp only [List.foldl_cons, List.filter_cons]
      by_cases hx : key x = q
      · have hb : (key x == q) = true := beq_iff_eq.mpr hx
        rw [if_pos hb, ih, mapLookup_mapSet, if_pos hx.symm, List.foldl_cons, hx]
        simp only [Option.getD_some]
      · have hb : ¬ (key x == q) = true := by
          intro hh; exact hx (beq_iff_eq.mp hh)
        rw [if_neg hb, ih, mapLookup_mapSet, if_neg (fun hh : q = key x => hx hh.symm)]

theorem mapLookup_uniqueLearnersMap (data : List LearnerData) (e : String) :
    mapLookup (uniqueLearnersMap data) e = (data.filter fun l => l.email == e).getLast? := by
  have h2 : mapLookup (uniqueLearnersMap data) e =
      ((data.filter fun l => l.email == e).getLast?).or none :=
    lookup_foldl_mapSet (fun l : LearnerData => l.email) data [] e
  rw [h2]
  cases (data.filter fun l => l.email == e).getLast? <;> rfl

theorem courseMapOf_eq (data : List LearnerData) (c : String) :
    courseMapOf data c =
      (data.filter fun l => l.courseName == c).foldl (fun im l => mapSet im l.email l) [] :=
  lookup_foldl_mapSet_upd (fun l : LearnerData => l.courseName)
    (fun im (l : LearnerData) => mapSet im l.email l) [] data [] c

theorem mapLookup_courseMapOf (data : List LearnerData) (c e : String) :
    mapLookup (courseMapOf data c) e =
      (data.filter fun l => l.email == e && l.courseName == c).getLast? := by
  rw [courseMapOf_eq]
  have h2 : mapLookup
      ((data.filter fun l => l.courseName == c).foldl (fun im l => mapSet im l.email l) []) e =
      (((data.filter fun l => l.courseName == c).filter fun l => l.email == e).getLast?).or
        none :=
    lookup_foldl_mapSet (fun l : LearnerData => l.email)
      (data.filter fun l => l.courseName == c) [] e
  rw [h2, List.filter_filter]
  cases (data.filter fun l => l.email == e && l.courseName == c).getLast? <;> rfl

theorem keys_uniqueLearnersMap (data : List LearnerData) :
    (uniqueLearnersMap data).map Prod.fst = uniqueEmails data :=
  keys_foldl_mapSet (fun l : LearnerData => l.email) (fun _ l => l) data []

theorem keys_courseMapOf (data : List LearnerData) (c : String) :
    (courseMapOf data c).map Prod.fst =
      (data.filter fun l => l.courseName == c).foldl (fun s l => setAdd s l.email) [] := by
  rw [courseMapOf_eq]
  exact keys_foldl_mapSet (fun l : LearnerData => l.email) (fun _ l => l) _ []

theorem nodup_uniqueEmails (data : List LearnerData) : (uniqueEmails data).Nodup :=
  foldl_setAdd_nodup (fun l : LearnerData => l.email) data [] List.nodup_nil

/-! ### Helper lemmas about sorting, sums and buckets -/

theorem filter_insertionSort_eq {α : Type} (r : α → α → Prop) [DecidableRel r]
    (p : α → Bool) (l : List α)
    (hp : ∀ a b, p a = true → p b = true → r a b) :
    (l.insertionSort r).filter p = l.filter p := by
  have h1 : List.Sublist (l.filter p) l := List.filter_sublist l
  have hpw : (l.filter p).Pairwise r :=
    List.pairwise_of_forall_mem_list fun a ha b hb =>
      hp a b (List.of_mem_filter ha) (List.of_mem_filter hb)
  have h2 : List.Sublist (l.filter p) (l.insertionSort r) :=
    List.sublist_insertionSort hpw h1
  have h3 : List.Sublist ((l.filter p).filter p) ((l.insertionSort r).filter p) :=
    h2.filter p
  have h4 : (l.filter p).filter p = l.filter p := by
    simp [List.filter_filter]
  have h5 : ((l.insertionSort r).filter p).length = (l.filter p).length :=
    ((List.perm_insertionSort r l).filter p).length_eq
  rw [h4] at h3
  exact (List.Sublist.eq_of_length h3 h5.symm).symm

theorem mem_weekNumbersOf (rows : List LearnerData) (w : Int) :
    w ∈ weekNumbersOf rows ↔ ∃ l ∈ rows, l.currentWeek = w := by
  unfold weekNumbersOf
  rw [List.mem_insertionSort, foldl_setAdd_mem]
  simp

theorem weekNumbersOf_nodup (rows : List LearnerData) : (weekNumbersOf rows).Nodup := by
  have hbase : (rows.foldl (fun s learner => setAdd s learner.currentWeek) []).Nodup :=
    foldl_setAdd_nodup (fun l : LearnerData => l.currentWeek) rows [] List.nodup_nil
  have hperm : List.Perm (rows.foldl (fun s learner => setAdd s learner.currentWeek) [])
      (weekNumbersOf rows) :=
    (List.perm_insertionSort (fun a b => a ≤ b)
      (rows.foldl (fun s learner => setAdd s learner.currentWeek) [])).symm
  exact hperm.nodup hbase

theorem weekNumbersOf_strictSorted (rows : List LearnerData) :
    (weekNumbersOf rows).Pairwise (· < ·) := by
  have h1 : (weekNumbersOf rows).Pairwise (· ≤ ·) :=
    List.sorted_insertionSort (· ≤ ·) _
  have h2 : (weekNumbersOf rows).Pairwise (· ≠ ·) := weekNumbersOf_nodup rows
  exact (h1.and h2).imp fun h => lt_of_le_of_ne h.1 h.2

/-- The sum of the four global status counters. -/
def sumStatusCounts (c : StatusCounts) : Nat :=
  c.completed + c.inProgress + c.atRisk + c.notStarted

theorem sumStatusCounts_bump (c : StatusCounts) (b : GlobalBucket) :
    sumStatusCounts (bumpStatus c b) = sumStatusCounts c + 1 := by
  cases b <;> simp [bumpStatus, sumStatusCounts] <;> omega

theorem sumStatusCounts_foldl {γ : Type} (f : γ → GlobalBucket) (l : List γ) :
    ∀ c : StatusCounts,
      sumStatusCounts (l.foldl (fun c x => bumpStatus c (f x)) c) =
        sumStatusCounts c + l.length := by
  induction l with
  | nil => intro c; simp
  | cons x t ih =>
      intro c
      rw [List.foldl_cons, ih, sumStatusCounts_bump, List.length_cons]
      omega

theorem length_uniqueLearnersMap (data : List LearnerData) :
    (uniqueLearnersMap data).length = uniqueLearnerCount data := by
  have h := congrArg List.length (keys_uniqueLearnersMap data)
  rw [List.length_map] at h
  exact h

theorem sum_statusCounts (data : List LearnerData) (cw : Int) :
    sumStatusCounts (statusCounts data cw) = uniqueLearnerCount data := by
  have h : sumStatusCounts (statusCounts data cw) =
      sumStatusCounts { completed := 0, inProgress := 0, atRisk := 0, notStarted := 0 } +
        ((uniqueLearnersMap data).map Prod.snd).length :=
    sumStatusCounts_foldl
      (fun learner : LearnerData =>
        globalBucket
          ((atRiskLearners data cw).any fun atRisk =>
            atRisk.toLearnerData.email == learner.email)
          learner.weekStatus)
      ((uniqueLearnersMap data).map Prod.snd) _
  rw [h, List.length_map, length_uniqueLearnersMap]
  simp [sumStatusCounts]

theorem sum_filter_pos_count (l : List RiskDistEntry) :
    ((l.filter fun item => decide (0 < item.count)).map fun e => e.count).sum =
      (l.map fun e => e.count).sum := by
  induction l with
  | nil => rfl
  | cons x t ih =>
      by_cases hx : 0 < x.count
      · simp [List.filter_cons, hx, ih]
      · have hx0 : x.count = 0 := by omega
        simp [List.filter_cons, hx, ih, hx0]

theorem sum_map_zero {γ : Type} (l : List γ) : (l.map fun _ => (0 : Nat)).sum = 0 := by
  induction l with
  | nil => rfl
  | cons x t ih => simp [ih]

theorem sum_map_add_nat {γ : Type} (l : List γ) (f g : γ → Nat) :
    (l.map fun x => f x + g x).sum = (l.map f).sum + (l.map g).sum := by
  induction l with
  | nil => rfl
  | cons x t ih => simp [ih]; omega

theorem sum_map_ite_count {γ : Type} (l : List γ) (q : γ → Bool) :
    (l.map fun x => if q x then 1 else 0).sum = (l.filter q).length := by
  induction l with
  | nil => rfl
  | cons x t ih =>
      by_cases hx : q x
      · simp [List.filter_cons, hx, ih]
        omega
      · simp [List.filter_cons, hx, ih]

theorem filter_length_le_one {γ : Type} (l : List γ) (p : γ → Bool)
    (h : l.Pairwise fun a b => ¬(p a = true ∧ p b = true)) :
    (l.filter p).length ≤ 1 := by
  induction l with
  | nil => simp
  | cons x t ih =>
      rcases List.pairwise_cons.mp h with ⟨hx, ht⟩
      by_cases hpx : p x = true
      · have hnil : t.filter p = [] := by
          rw [List.filter_eq_nil_iff]
          intro a ha hpa
          exact hx a ha ⟨hpx, hpa⟩
        simp [List.filter_cons, hpx, hnil]
      · simp only [List.filter_cons, if_neg hpx]
        exact ih ht

theorem ranges_disjoint (v : Rat) :
    (progressRanges.filter fun r => inRange r v).length ≤ 1 := by
  apply filter_length_le_one
  refine List.Pairwise.cons ?_ (List.Pairwise.cons ?_ (List.Pairwise.cons ?_
    (List.Pairwise.cons ?_ (List.Pairwise.cons
      (fun b hb => absurd hb (List.not_mem_nil b)) List.Pairwise.nil)))) <;>
    · intro b hb hcon
      rcases hcon with ⟨ha, hbc⟩
      simp only [inRange, Bool.and_eq_true, decide_eq_true_eq, ge_iff_le] at ha hbc
      fin_cases hb <;>
        · simp only at ha hbc
          obtain ⟨ha1, ha2⟩ := ha
          obtain ⟨hb1, hb2⟩ := hbc
          linarith

theorem sum_bucket_counts_le (vals : List LearnerData) (rs : List ProgressRange)
    (h : ∀ v : Rat, (rs.filter fun r => inRange r v).length ≤ 1) :
    (rs.map fun r => (vals.filter fun l => inRange r l.weekPercentage).length).sum ≤
      vals.length := by
  induction vals with
  | nil =>
      have h0 : (rs.map fun r =>
          (([] : List LearnerData).filter fun l => inRange r l.weekPercentage).length) =
          rs.map fun _ => 0 := by
        simp
      rw [h0, sum_map_zero]
      simp
  | cons v vs ih =>
      have hsplit : (fun r : ProgressRange =>
            ((v :: vs).filter fun l => inRange r l.weekPercentage).length) =
          fun r : ProgressRange =>
            (if inRange r v.weekPercentage then 1 else 0) +
              (vs.filter fun l => inRange r l.weekPercentage).length := by
        funext r
        by_cases hr : inRange r v.weekPercentage
        · simp [List.filter_cons, hr]
          omega
        · simp [List.filter_cons, hr]
      rw [hsplit, sum_map_add_nat, sum_map_ite_count, List.length_cons]
      have hA := h v.weekPercentage
      omega

theorem mem_atRiskLearners (data : List LearnerData) (cw : Int) (e : AtRiskLearner) :
    e ∈ atRiskLearners data cw ↔
      ∃ a, (a ∈ data ∧ 1 ≤ cw - a.currentWeek ∧ cw - a.currentWeek ≤ 3) ∧
        atRiskEntry cw a = e := by
  unfold atRiskLearners atRiskUnsorted
  rw [List.mem_insertionSort]
  simp only [List.mem_map, List.mem_filter, Bool.and_eq_true, decide_eq_true_eq,
    ge_iff_le, and_assoc]

theorem atRiskEntry_toLearnerData (cw : Int) (l : LearnerData) :
    (atRiskEntry cw l).toLearnerData = l := rfl

theorem atRiskEntry_weeksBeind (cw : Int) (l : LearnerData)
    (h : 1 ≤ cw - l.currentWeek) :
    (atRiskEntry cw l).weeksBeind = cw - l.currentWeek := by
  unfold atRiskEntry
  exact max_eq_right (by omega)

theorem atRiskEntry_riskLevel (cw : Int) (l : LearnerData)
    (h : 1 ≤ cw - l.currentWeek) :
    (atRiskEntry cw l).riskLevel =
      (if cw - l.currentWeek = 3 then RiskLevel.High
       else if cw - l.currentWeek = 2 then RiskLevel.Medium
       else if cw - l.currentWeek = 1 then RiskLevel.Low
       else RiskLevel.Low) := by
  unfold atRiskEntry
  rw [max_eq_right (by omega : (0 : Int) ≤ cw - l.currentWeek)]

/-! ### Claim theorems -/

/-- C1: a row of the full (non-deduplicated) input yields an atRiskLearners
entry exactly when weeksBehind = currentAnalysisWeek - currentWeek lies
between 1 and 3, and every entry carries that weeksBehind value together
with risk level High for 3, Medium for 2 and Low for 1; rows with
weeksBehind outside 1..3 yield no entry. -/
theorem C1_atRisk_membership (data : List LearnerData) (cw : Int) :
    (∀ l ∈ data,
      ((∃ e ∈ atRiskLearners data cw, e.toLearnerData = l) ↔
        (1 ≤ cw - l.currentWeek ∧ cw - l.currentWeek ≤ 3))) ∧
    (∀ e ∈ atRiskLearners data cw,
      e.toLearnerData ∈ data ∧
      e.weeksBeind = cw - e.toLearnerData.currentWeek ∧
      1 ≤ e.weeksBeind ∧ e.weeksBeind ≤ 3 ∧
      (e.weeksBeind = 3 → e.riskLevel = RiskLevel.High) ∧
      (e.weeksBeind = 2 → e.riskLevel = RiskLevel.Medium) ∧
      (e.weeksBeind = 1 → e.riskLevel = RiskLevel.Low)) := by
  constructor
  · intro l hl
    constructor
    · rintro ⟨e, he, hte⟩
      rcases (mem_atRiskLearners data cw e).mp he with ⟨a, ⟨_, h1, h3⟩, hae⟩
      have hal : a = l := by rw [← hte, ← hae, atRiskEntry_toLearnerData]
      exact ⟨hal ▸ h1, hal ▸ h3⟩
    · intro hb
      exact ⟨atRiskEntry cw l,
        (mem_atRiskLearners data cw _).mpr ⟨l, ⟨hl, hb.1, hb.2⟩, rfl⟩,
        atRiskEntry_toLearnerData cw l⟩
  · intro e he
    rcases (mem_atRiskLearners data cw e).mp he with ⟨a, ⟨ha, h1, h3⟩, hae⟩
    subst hae
    rw [atRiskEntry_toLearnerData]
    have hwb := atRiskEntry_weeksBeind cw a h1
    refine ⟨ha, hwb, ?_, ?_, ?_, ?_, ?_⟩
    · rw [hwb]; exact h1
    · rw [hwb]; exact h3
    · intro h; rw [hwb] at h; rw [atRiskEntry_riskLevel cw a h1, h]; simp
    · intro h; rw [hwb] at h; rw [atRiskEntry_riskLevel cw a h1, h]; simp
    · intro h; rw [hwb] at h; rw [atRiskEntry_riskLevel cw a h1, h]; simp

/-- Witness for C1 at a concrete input. -/
theorem C1_witness :
    (∃ e ∈ atRiskLearners [graceRow] 2, e.toLearnerData = graceRow) ∧
    (1 ≤ (2 : Int) - graceRow.currentWeek ∧ (2 : Int) - graceRow.currentWeek ≤ 3) := by
  have h := (C1_atRisk_membership [graceRow] 2).1 graceRow (by decide)
  have hb : 1 ≤ (2 : Int) - graceRow.currentWeek ∧
      (2 : Int) - graceRow.currentWeek ≤ 3 := by decide
  exact ⟨h.mpr hb, hb⟩

/-- C2: the grace-period flag (modelled from the spec, the field being
absent from the return statement of the sources on hand) is true exactly
when the analysis week is below 4 -- true at week 3, false at week 4 --
while the at-risk list is still computed mechanically by the week math even
when the flag is true. -/
theorem C2_isGracePeriod (cw : Int) :
    (isGracePeriod cw = true ↔ cw < 4) ∧
    isGracePeriod 3 = true ∧ isGracePeriod 4 = false ∧
    isGracePeriod 2 = true ∧
    (atRiskLearners [graceRow] 2).map (fun e => (e.weeksBeind, e.riskLevel)) =
      [(1, RiskLevel.Low)] := by
  refine ⟨?_, by decide, by decide, by decide, by decide⟩
  simp [isGracePeriod]

/-- Witness for C2 at a concrete input. -/
theorem C2_witness : isGracePeriod 3 = true := (C2_isGracePeriod 3).2.1

/-- C3: a row is off-track exactly when it is behind the analysis week and
its lowercased next action contains neither "move to week" nor
"move to next"; a behind learner with next action "Move to Week 3" is
excluded, learners more than 3 weeks behind are included, and duplicate
emails are not collapsed. -/
theorem C3_offTrack_membership (data : List LearnerData) (cw : Int) :
    (∀ l ∈ data,
      (l ∈ offTrackLearners data cw ↔
        (l.currentWeek < cw ∧
          strIncludes (strToLower l.nextAction) "move to week" = false ∧
          strIncludes (strToLower l.nextAction) "move to next" = false))) ∧
    (moveRow.currentWeek < 5 ∧ moveRow.nextAction = "Move to Week 3" ∧
      offTrackLearners [moveRow] 5 = []) ∧
    ((3 : Int) < (5 : Int) - farRow.currentWeek ∧
      offTrackLearners [farRow] 5 = [farRow]) ∧
    (offDupA.email = offDupB.email ∧
      offTrackLearners [offDupA, offDupB] 5 = [offDupA, offDupB]) := by
  refine ⟨?_, by decide, by decide, by decide⟩
  intro l hl
  simp only [offTrackLearners, List.mem_filter, hl, true_and]
  by_cases hbw : l.currentWeek < cw
  · have hd : decide (l.currentWeek < cw) = true := decide_eq_true hbw
    constructor
    · intro h
      rw [hd] at h
      simp only [Bool.not_true] at h
      rw [if_neg (by simp)] at h
      rw [Bool.not_eq_true', Bool.or_eq_false_iff] at h
      exact ⟨hbw, h.1, h.2⟩
    · rintro ⟨-, h1, h2⟩
      rw [hd]
      simp [h1, h2]
  · have hd : decide (l.currentWeek < cw) = false := decide_eq_false hbw
    constructor
    · intro h
      rw [hd] at h
      simp at h
    · rintro ⟨h, -⟩
      exact absurd h hbw

/-- Witness for C3 at a concrete input. -/
theorem C3_witness : farRow ∈ offTrackLearners [farRow] 5 := by
  have h := ((C3_offTrack_membership [farRow] 5).1 farRow (by decide)).mpr (by decide)
  exact h

/-- C7: the at-risk list is sorted by non-increasing weeksBeind, and among
entries with equal weeksBeind the original relative order of the unsorted
filter-and-map stage (input order) is preserved. -/
theorem C7_atRisk_sorted_stable (data : List LearnerData) (cw : Int) :
    (atRiskLearners data cw).Pairwise (fun a b => b.weeksBeind ≤ a.weeksBeind) ∧
    ∀ w : Int,
      (atRiskLearners data cw).filter (fun e => e.weeksBeind == w) =
        (atRiskUnsorted data cw).filter (fun e => e.weeksBeind == w) := by
  constructor
  · exact List.sorted_insertionSort riskOrder _
  · intro w
    apply filter_insertionSort_eq
    intro a b ha hb
    have ha2 : a.weeksBeind = w := by simpa using ha
    have hb2 : b.weeksBeind = w := by simpa using hb
    simp [riskOrder, ha2, hb2]

/-- Witness for C7 at a concrete input. -/
theorem C7_witness :
    (atRiskLearners tieDemo 5).Pairwise (fun a b => b.weeksBeind ≤ a.weeksBeind) :=
  (C7_atRisk_sorted_stable tieDemo 5).1

/-- C4: deduplication is last-write-wins: the global email map and each
per-course email map hold, for every key, the last matching row in input
order, with duplicate-free keys; at a concrete duplicate input only the
last row contributes to CourseStats.totalLearners, to its status bucket,
to the global unique count and to progressDistribution, and the earlier
duplicate is silently overwritten. -/
theorem C4_dedup_lastWriteWins (data : List LearnerData) (e c : String) :
    mapLookup (uniqueLearnersMap data) e =
      (data.filter fun l => l.email == e).getLast? ∧
    mapLookup (courseMapOf data c) e =
      (data.filter fun l => l.email == e && l.courseName == c).getLast? ∧
    ((uniqueLearnersMap data).map Prod.fst).Nodup ∧
    ((courseMapOf data c).map Prod.fst).Nodup ∧
    ((courseStats dedupDemo 0).map fun s =>
      (s.courseName, s.totalLearners, s.completed, s.inProgress)) =
      [("Cloud Foundations", 1, 1, 0)] ∧
    uniqueLearnerCount dedupDemo = 1 ∧
    (progressDistribution dedupDemo).map (fun x => x.count) = [0, 0, 0, 0, 1] := by
  refine ⟨mapLookup_uniqueLearnersMap data e, mapLookup_courseMapOf data c e,
    ?_, ?_, by decide, by decide, by decide⟩
  · rw [keys_uniqueLearnersMap]
    exact nodup_uniqueEmails data
  · rw [keys_courseMapOf]
    exact foldl_setAdd_nodup (fun l : LearnerData => l.email) _ [] List.nodup_nil

/-- Witness for C4 at a concrete input. -/
theorem C4_witness :
    mapLookup (uniqueLearnersMap dedupDemo) "a@example.com" = some dupSecond := by
  have h := (C4_dedup_lastWriteWins dedupDemo "a@example.com" "Cloud Foundations").1
  rw [h]
  decide

/-- C5 counterexample: a week status containing both "progress" and
"not started" (and not "completed") is bucketed In Progress by the course
statistics but Not Started by the global status distribution, refuting the
claim that the one ordered rule is applied in every aggregate. -/
theorem C5_counterexample :
    strIncludes (strToLower mixedRow.weekStatus) "progress" = true ∧
    strIncludes (strToLower mixedRow.weekStatus) "not started" = true ∧
    strIncludes (strToLower mixedRow.weekStatus) "completed" = false ∧
    ((courseStats [mixedRow] 0).map fun s => (s.inProgress, s.notStarted)) = [(1, 0)] ∧
    (statusCounts [mixedRow] 0).notStarted = 1 ∧
    (statusCounts [mixedRow] 0).inProgress = 0 := by decide

/-- C5 amended: the course statistics apply the spec's ordered first-match
rule; the global status distribution instead checks completed, then
not started, then buckets the rest as In Progress or At Risk, so a status
containing "not started" and not "completed" is Not Started there even when
it contains "progress"; the weekly breakdowns use independent substring
filters, so such a status is counted under both inProgressCount and
notStartedCount. -/
theorem C5_bucketing_amended (s : String) (flag : Bool) (rows : List LearnerData)
    (w : Int) (l : LearnerData) :
    courseBucket s = specStatusBucket s ∧
    (strIncludes (strToLower s) "completed" = false →
      strIncludes (strToLower s) "not started" = true →
      globalBucket flag s = GlobalBucket.notStarted) ∧
    (l ∈ rows → l.currentWeek = w →
      strIncludes (strToLower l.weekStatus) "progress" = true →
      strIncludes (strToLower l.weekStatus) "not started" = true →
      1 ≤ (weekEntry rows w).inProgressCount ∧
        1 ≤ (weekEntry rows w).notStartedCount) := by
  refine ⟨rfl, ?_, ?_⟩
  · intro h1 h2
    unfold globalBucket
    rw [if_neg (by simp [h1]), if_pos h2]
  · intro hl hw hp hns
    have hmem : l ∈ rows.filter (fun x => x.currentWeek == w) :=
      List.mem_filter.mpr ⟨hl, by simp [hw]⟩
    constructor
    · have hm2 : l ∈ (rows.filter (fun x => x.currentWeek == w)).filter
          (fun x => strIncludes (strToLower x.weekStatus) "progress") :=
        List.mem_filter.mpr ⟨hmem, hp⟩
      exact List.length_pos.mpr (List.ne_nil_of_mem hm2)
    · have hm2 : l ∈ (rows.filter (fun x => x.currentWeek == w)).filter
          (fun x => strIncludes (strToLower x.weekStatus) "not started") :=
        List.mem_filter.mpr ⟨hmem, hns⟩
      exact List.length_pos.mpr (List.ne_nil_of_mem hm2)

/-- Witness for C5 at a concrete input. -/
theorem C5_witness :
    1 ≤ (weekEntry [mixedRow] 0).inProgressCount ∧
    1 ≤ (weekEntry [mixedRow] 0).notStartedCount :=
  (C5_bucketing_amended mixedRow.weekStatus false [mixedRow] 0 mixedRow).2.2
    (by decide) (by decide) (by decide) (by decide)

/-- The riskDistribution list before dropping zero counts, spelled out. -/
theorem riskDistribution_eq (data : List LearnerData) (cw : Int) :
    riskDistribution data cw =
      ([{ name := "In Progress", count := (statusCounts data cw).inProgress,
          percentage := jsPct (statusCounts data cw).inProgress (uniqueLearnerCount data) },
        { name := "Completed", count := (statusCounts data cw).completed,
          percentage := jsPct (statusCounts data cw).completed (uniqueLearnerCount data) },
        { name := "At Risk", count := (statusCounts data cw).atRisk,
          percentage := jsPct (statusCounts data cw).atRisk (uniqueLearnerCount data) },
        { name := "Not Started", count := (statusCounts data cw).notStarted,
          percentage := jsPct (statusCounts data cw).notStarted (uniqueLearnerCount data) }] :
        List RiskDistEntry).filter fun item => decide (0 < item.count) := rfl

/-- C8 counterexample: when the first row of a week has an empty
currentWeekName, the produced weekName is the fallback "Week n", not the
first row's name, refuting the claim as stated. -/
theorem C8_counterexample :
    blankWeekRow.currentWeekName = "" ∧
    ([blankWeekRow].filter fun l => l.currentWeek == (3 : Int)).head? =
      some blankWeekRow ∧
    (weeklyProgressStats [blankWeekRow]).map (fun x => x.weekName) = ["Week 3"] ∧
    "Week 3" ≠ blankWeekRow.currentWeekName := by decide

/-- C8 amended: weeklyProgressStats has exactly one entry per distinct
currentWeek among the rows, in strictly ascending week order; learnersCount
counts every row of that week without deduplication; and weekName is the
first matching row's currentWeekName unless that name is the empty string,
in which case the fallback "Week n" is used. -/
theorem C8_weeklyProgress_amended (data : List LearnerData) :
    ((weeklyProgressStats data).map (fun x => x.weekNumber)).Pairwise (· < ·) ∧
    (∀ w : Int, (∃ x ∈ weeklyProgressStats data, x.weekNumber = w) ↔
      ∃ l ∈ data, l.currentWeek = w) ∧
    (∀ x ∈ weeklyProgressStats data,
      x.learnersCount = (data.filter fun l => l.currentWeek == x.weekNumber).length ∧
      x.weekName =
        (match (data.filter fun l => l.currentWeek == x.weekNumber).head? with
         | some l =>
             if l.currentWeekName = "" then "Week " ++ toString x.weekNumber
             else l.currentWeekName
         | none => "Week " ++ toString x.weekNumber)) := by
  have hmap : (weeklyProgressStats data).map (fun x => x.weekNumber) =
      weekNumbersOf data := by
    unfold weeklyProgressStats
    rw [List.map_map]
    have h : ((fun x : WeeklyProgress => x.weekNumber) ∘ weekEntry data) = id :=
      funext fun w => rfl
    rw [h, List.map_id]
  refine ⟨?_, ?_, ?_⟩
  · rw [hmap]
    exact weekNumbersOf_strictSorted data
  · intro w
    constructor
    · rintro ⟨x, hx, rfl⟩
      unfold weeklyProgressStats at hx
      rcases List.mem_map.mp hx with ⟨w0, hw0, rfl⟩
      exact (mem_weekNumbersOf data w0).mp hw0
    · rintro ⟨l, hl, rfl⟩
      refine ⟨weekEntry data l.currentWeek, ?_, rfl⟩
      unfold weeklyProgressStats
      exact List.mem_map_of_mem _ ((mem_weekNumbersOf data _).mpr ⟨l, hl, rfl⟩)
  · intro x hx
    unfold weeklyProgressStats at hx
    rcases List.mem_map.mp hx with ⟨w0, hw0, rfl⟩
    exact ⟨rfl, rfl⟩

/-- Witness for C8 at a concrete input. -/
theorem C8_witness :
    (weekEntry [blankWeekRow] 3).learnersCount =
      ([blankWeekRow].filter fun l =>
        l.currentWeek == (weekEntry [blankWeekRow] 3).weekNumber).length :=
  ((C8_weeklyProgress_amended [blankWeekRow]).2.2 (weekEntry [blankWeekRow] 3)
    (by decide)).1

/-- C9: the counts of the returned riskDistribution sum to totalLearners --
each deduplicated learner is counted in exactly one category and dropping
the zero-count categories does not change the sum -- and the At Risk
category only takes learners that would otherwise be In Progress. -/
theorem C9_riskDistribution_sum (data : List LearnerData) (cw : Int) :
    (((analyzeLearnerData data cw).riskDistribution.map fun x => x.count).sum =
      (analyzeLearnerData data cw).totalLearners) ∧
    (∀ (flag : Bool) (s : String), globalBucket flag s = GlobalBucket.atRisk →
      flag = true ∧ globalBucket false s = GlobalBucket.inProgress) := by
  constructor
  · show ((riskDistribution data cw).map fun x => x.count).sum = uniqueLearnerCount data
    rw [riskDistribution_eq, sum_filter_pos_count]
    simp only [List.map_cons, List.map_nil, List.sum_cons, List.sum_nil]
    have hsum := sum_statusCounts data cw
    unfold sumStatusCounts at hsum
    omega
  · intro flag s hb
    cases flag with
    | false =>
        exfalso
        unfold globalBucket at hb
        by_cases c1 : strIncludes (strToLower s) "completed" = true
        · rw [if_pos c1] at hb
          exact GlobalBucket.noConfusion hb
        · rw [if_neg c1] at hb
          by_cases c2 : strIncludes (strToLower s) "not started" = true
          · rw [if_pos c2] at hb
            exact GlobalBucket.noConfusion hb
          · rw [if_neg c2] at hb
            by_cases c3 : strIncludes (strToLower s) "progress" = true
            · rw [if_pos c3, if_neg (by simp)] at hb
              exact GlobalBucket.noConfusion hb
            · rw [if_neg c3, if_neg (by simp)] at hb
              exact GlobalBucket.noConfusion hb
    | true =>
        refine ⟨rfl, ?_⟩
        unfold globalBucket at hb ⊢
        by_cases c1 : strIncludes (strToLower s) "completed" = true
        · rw [if_pos c1] at hb
          exact GlobalBucket.noConfusion hb
        · rw [if_neg c1] at hb ⊢
          by_cases c2 : strIncludes (strToLower s) "not started" = true
          · rw [if_pos c2] at hb
            exact GlobalBucket.noConfusion hb
          · rw [if_neg c2]
            by_cases c3 : strIncludes (strToLower s) "progress" = true
            · rw [if_pos c3, if_neg (by simp)]
            · rw [if_neg c3, if_neg (by simp)]

/-- Witness for C9 at a concrete input. -/
theorem C9_witness :
    (true : Bool) = true ∧ globalBucket false baseRow.weekStatus = GlobalBucket.inProgress :=
  (C9_riskDistribution_sum [] 0).2 true baseRow.weekStatus (by decide)

/-- C10: the five progressDistribution counts sum to at most totalLearners,
no weekPercentage value lies in two buckets, and at a concrete input whose
deduplicated learner has weekPercentage 20.5 the sum is strictly smaller
than totalLearners because the value falls in no bucket. -/
theorem C10_progressDistribution_sum (data : List LearnerData) (cw : Int) :
    (((analyzeLearnerData data cw).progressDistribution.map fun x => x.count).sum ≤
      (analyzeLearnerData data cw).totalLearners) ∧
    (∀ v : Rat, (progressRanges.filter fun r => inRange r v).length ≤ 1) ∧
    ((progressDistribution [gapRow]).map fun x => x.count).sum = 0 ∧
    uniqueLearnerCount [gapRow] = 1 := by
  refine ⟨?_, ranges_disjoint, by decide, by decide⟩
  show ((progressDistribution data).map fun x => x.count).sum ≤ uniqueLearnerCount data
  unfold progressDistribution
  rw [List.map_map]
  have hcomp : ((fun x : ProgressDistEntry => x.count) ∘ fun r =>
      ({ range := r.range,
         count := (((uniqueLearnersMap data).map Prod.snd).filter fun learner =>
           inRange r learner.weekPercentage).length } : ProgressDistEntry)) =
      fun r => (((uniqueLearnersMap data).map Prod.snd).filter fun learner =>
        inRange r learner.weekPercentage).length :=
    funext fun r => rfl
  rw [hcomp]
  have hs := sum_bucket_counts_le ((uniqueLearnersMap data).map Prod.snd)
    progressRanges ranges_disjoint
  rw [List.length_map, length_uniqueLearnersMap] at hs
  exact hs

/-- Witness for C10 at a concrete input. -/
theorem C10_witness :
    ((progressDistribution [gapRow]).map fun x => x.count).sum = 0 :=
  (C10_progressDistribution_sum [gapRow] 0).2.2.1

/-- C6: for empty input every aggregate of the returned result is zero or
empty without any failure, and in general every percentage present in the
returned riskDistribution and nextActionStats is a finite rounded integer
(its denominator is positive); the non-finite zero-denominator values never
appear in the returned result. -/
theorem C6_zero_denominators (data : List LearnerData) (cw : Int) :
    (analyzeLearnerData [] cw =
      { totalLearners := 0, atRiskLearners := [], courseStats := [],
        progressDistribution := [⟨"0-20%", 0⟩, ⟨"21-40%", 0⟩, ⟨"41-60%", 0⟩,
          ⟨"61-80%", 0⟩, ⟨"81-100%", 0⟩],
        riskDistribution := [], weeklyProgressStats := [], nextActionStats := [],
        courseWeekStats := [], offTrackLearners := [] }) ∧
    (∀ x ∈ (analyzeLearnerData data cw).riskDistribution,
      ∃ n : Int, x.percentage = some n) ∧
    (∀ x ∈ (analyzeLearnerData data cw).nextActionStats,
      ∃ n : Int, x.percentage = some n) := by
  refine ⟨rfl, ?_, ?_⟩
  · intro x hx
    have hx2 : x ∈ riskDistribution data cw := hx
    rw [riskDistribution_eq] at hx2
    rcases List.mem_filter.mp hx2 with ⟨hmem, hpos⟩
    have hposn : 0 < x.count := of_decide_eq_true hpos
    have hsum := sum_statusCounts data cw
    unfold sumStatusCounts at hsum
    simp only [List.mem_cons, List.not_mem_nil, or_false] at hmem
    rcases hmem with rfl | rfl | rfl | rfl <;>
      · simp only at hposn
        have hn0 : uniqueLearnerCount data ≠ 0 := by omega
        simp only [jsPct, if_neg hn0]
        exact ⟨_, rfl⟩
  · intro x hx
    have hx2 : x ∈ nextActionStats data := hx
    unfold nextActionStats at hx2
    rw [List.mem_insertionSort] at hx2
    rcases List.mem_map.mp hx2 with ⟨p, hp, rfl⟩
    cases data with
    | nil => simp [nextActionMap] at hp
    | cons d ds =>
        have hlen : (d :: ds).length ≠ 0 := by simp
        simp only [jsPct, if_neg hlen]
        exact ⟨_, rfl⟩

/-- Witness for C6 at a concrete input. -/
theorem C6_witness : (analyzeLearnerData [] 7).riskDistribution = [] := by
  have h := (C6_zero_denominators [] 7).1
  rw [h]
